import Mathlib

/-!
Verification of the arXiv-papers single-table document store
(`src/problem2/load_data.py`, `src/problem2/query_papers.py`,
`src/problem2/api_server.py`).

The Python code is shallowly embedded: strings are `String`, Python dicts for
stored items become a fixed `Item` structure whose optional attributes are
`Option`-valued, the DynamoDB table becomes a `List Item` with explicit
put/query functions, and the keyword extraction pipeline is translated
function by function.
-/

namespace ArxivDB

/-! ### String helpers modelling Python primitives -/

/-- Model of Python's `str.lower` on one character (ASCII range). -/
def lowerChar (c : Char) : Char :=
  if 65 ≤ c.toNat ∧ c.toNat ≤ 90 then Char.ofNat (c.toNat + 32) else c

/-- Model of Python's `str.lower` (ASCII model). -/
def strLower (s : String) : String := ⟨s.data.map lowerChar⟩

/-- Model of the Python slice `s[:n]`. -/
def strTake (s : String) (n : Nat) : String := ⟨s.data.take n⟩

/-- An ASCII upper-case letter. -/
def isUpperAscii (c : Char) : Bool := decide (65 ≤ c.toNat ∧ c.toNat ≤ 90)

/-- Word character in the sense of the regex `\w` (ASCII model):
letters, digits, underscore. -/
def isWordChar (c : Char) : Bool := c.isAlphanum || c == '_'

/-- Helper for `tokenize`: walks the character list accumulating the current
run of word characters (in reverse). -/
def tokenizeAux : List Char → List Char → List String
  | [], acc => if acc.isEmpty then [] else [⟨acc.reverse⟩]
  | c :: cs, acc =>
    if isWordChar c then tokenizeAux cs (c :: acc)
    else if acc.isEmpty then tokenizeAux cs []
    else ⟨acc.reverse⟩ :: tokenizeAux cs []

/-- Model of `re.findall(r'\b\w+\b', s)`: the maximal runs of word
characters of `s`, in order. -/
def tokenize (s : String) : List String := tokenizeAux s.data []

/-- The `STOPWORDS` set of `load_data.py`. -/
def STOPWORDS : List String :=
  ["the", "a", "an", "and", "or", "but", "in", "on", "at", "to", "for",
   "of", "with", "by", "from", "up", "about", "into", "through", "during",
   "is", "are", "was", "were", "be", "been", "being", "have", "has", "had",
   "do", "does", "did", "will", "would", "could", "should", "may", "might",
   "can", "this", "that", "these", "those", "we", "our", "use", "using",
   "based", "approach", "method", "paper", "propose", "proposed", "show"]

/-- First occurrence of each distinct word, in order: the key order of
`collections.Counter` (dict insertion order). -/
def counterKeys (seen : List String) : List String → List String
  | [] => []
  | w :: ws => if seen.contains w then counterKeys seen ws else w :: counterKeys (w :: seen) ws

/-- Model of `Counter(words).most_common(n)` (keys only): the distinct words
sorted by descending count and truncated to `n`.  CPython's
`heapq.nlargest`/`sorted` are stable, so equal counts keep the dict insertion
order, i.e. first-occurrence order; `List.insertionSort` is likewise stable. -/
def mostCommon (words : List String) (n : Nat) : List String :=
  ((counterKeys [] words).insertionSort (fun a b => words.count b ≤ words.count a)).take n

/-- Model of `extract_keywords` from `load_data.py`. -/
def extract_keywords (text : String) (top_n : Nat := 10) : List String :=
  let words := tokenize (strLower text)
  let kept := words.filter (fun w => !STOPWORDS.contains w && decide (2 < w.length))
  mostCommon kept top_n

/-! ### Lexicographic order of composite keys -/

theorem lex_append_iff {α : Type} [LinearOrder α] :
    ∀ (u v : List α), u.length = v.length → ∀ (x y : List α),
      (List.Lex (· < ·) (u ++ x) (v ++ y) ↔
        List.Lex (· < ·) u v ∨ (u = v ∧ List.Lex (· < ·) x y))
  | [], [], _, x, y => by
    constructor
    · intro h; exact Or.inr ⟨rfl, h⟩
    · rintro (h | ⟨-, h⟩)
      · cases h
      · exact h
  | [], _ :: _, h, _, _ => by simp at h
  | _ :: _, [], h, _, _ => by simp at h
  | a :: u, b :: v, h, x, y => by
    simp only [List.length_cons, Nat.succ_inj] at h
    show List.Lex (· < ·) (a :: (u ++ x)) (b :: (v ++ y)) ↔ _
    constructor
    · intro hlex
      cases hlex with
      | rel hab => exact Or.inl (List.Lex.rel hab)
      | cons htl =>
        rcases (lex_append_iff u v h x y).mp htl with h1 | ⟨rfl, h2⟩
        · exact Or.inl (List.Lex.cons h1)
        · exact Or.inr ⟨rfl, h2⟩
    · rintro (hlex | ⟨heq, hxy⟩)
      · cases hlex with
        | rel hab => exact List.Lex.rel hab
        | cons htl => exact List.Lex.cons ((lex_append_iff u v h x y).mpr (Or.inl htl))
      · cases heq
        exact List.Lex.cons ((lex_append_iff u u h x y).mpr (Or.inr ⟨rfl, hxy⟩))

theorem strLt_iff_data {s t : String} : s < t ↔ List.Lex (· < ·) s.data t.data := by
  rw [String.lt_iff_toList_lt]
  exact Iff.rfl

theorem strLt_append_iff (u v x y : String) (h : u.length = v.length) :
    u ++ x < v ++ y ↔ u < v ∨ (u = v ∧ x < y) := by
  rw [strLt_iff_data, String.data_append, String.data_append]
  rw [lex_append_iff u.data v.data h x.data y.data]
  rw [← strLt_iff_data, ← strLt_iff_data]
  constructor
  · rintro (h1 | ⟨h2, h3⟩)
    · exact Or.inl h1
    · exact Or.inr ⟨String.ext h2, h3⟩
  · rintro (h1 | ⟨rfl, h3⟩)
    · exact Or.inl h1
    · exact Or.inr ⟨rfl, h3⟩

theorem strLe_append_iff (u v x y : String) (h : u.length = v.length) :
    u ++ x ≤ v ++ y ↔ u < v ∨ (u = v ∧ x ≤ y) := by
  rw [← not_lt, strLt_append_iff v u y x h.symm]
  push_neg
  constructor
  · rintro ⟨h1, h2⟩
    rcases lt_or_eq_of_le (not_lt.mp h1) with h3 | h3
    · exact Or.inl h3
    · exact Or.inr ⟨h3, not_lt.mp (h2 h3.symm)⟩
  · rintro (h1 | ⟨rfl, h2⟩)
    · exact ⟨not_lt.mpr h1.le, fun hvu => absurd hvu.symm (ne_of_lt h1)⟩
    · exact ⟨not_lt.mpr le_rfl, fun _ => not_lt.mpr h2⟩

theorem strAppend_right_cancel {u v x : String} (h : u.length = v.length)
    (heq : u ++ x = v ++ x) : u = v := by
  apply String.ext
  have hd := congrArg String.data heq
  rw [String.data_append, String.data_append] at hd
  exact List.append_inj_left hd h

theorem strAppend_left_cancel {u x y : String} (h : u ++ x = u ++ y) : x = y := by
  apply String.ext
  have hd := congrArg String.data h
  rw [String.data_append, String.data_append] at hd
  exact List.append_cancel_left hd

theorem sk_le_iff (d1 d2 i1 i2 : String) (h : d1.length = d2.length) :
    d2 ++ "#" ++ i2 ≤ d1 ++ "#" ++ i1 ↔ d2 < d1 ∨ (d2 = d1 ∧ i2 ≤ i1) := by
  rw [strLe_append_iff (d2 ++ "#") (d1 ++ "#") i2 i1 (by simp [String.length_append, h.symm])]
  rw [strLt_append_iff d2 d1 "#" "#" h.symm]
  constructor
  · rintro ((h1 | ⟨h1, h2⟩) | ⟨h1, h2⟩)
    · exact Or.inl h1
    · exact absurd h2 (lt_irrefl _)
    · exact Or.inr ⟨strAppend_right_cancel h.symm h1, h2⟩
  · rintro (h1 | ⟨rfl, h2⟩)
    · exact Or.inl (Or.inl h1)
    · exact Or.inr ⟨rfl, h2⟩

theorem str_empty_le (s : String) : "" ≤ s := by
  rw [← not_lt, strLt_iff_data]
  intro h
  exact List.Lex.not_nil_right _ _ h

theorem lower_bound_iff (d1 d i : String) (h : d1.length = d.length) :
    d1 ++ "#" ≤ d ++ "#" ++ i ↔ d1 ≤ d := by
  have h0 : d1 ++ "#" = (d1 ++ "#") ++ "" := by
    apply String.ext; simp [String.data_append]
  rw [h0, strLe_append_iff (d1 ++ "#") (d ++ "#") "" i
      (by simp [String.length_append, h]),
    strLt_append_iff d1 d "#" "#" h]
  constructor
  · rintro ((h1 | ⟨h1, h2⟩) | ⟨h1, h2⟩)
    · exact h1.le
    · exact absurd h2 (lt_irrefl _)
    · exact (strAppend_right_cancel h h1).le
  · intro h1
    rcases lt_or_eq_of_le h1 with h2 | rfl
    · exact Or.inl (Or.inl h2)
    · exact Or.inr ⟨rfl, str_empty_le i⟩

theorem le_zzz (s : String) (h : ∀ c, s.data.head? = some c → c < 'z') : s ≤ "zzzzzzzz" := by
  rw [← not_lt, strLt_iff_data]
  intro hlt
  cases hs : s.data with
  | nil => rw [hs] at hlt; exact List.Lex.not_nil_right _ _ hlt
  | cons c cs =>
    have hc := h c (by rw [hs]; rfl)
    rw [hs] at hlt
    have hz : ("zzzzzzzz" : String).data = 'z' :: ['z','z','z','z','z','z','z'] := rfl
    rw [hz] at hlt
    cases hlt with
    | rel h1 => exact absurd h1 (asymm hc)
    | cons h1 => exact absurd hc (lt_irrefl _)

theorem upper_bound_iff (d d2 i : String) (h : d.length = d2.length)
    (hi : i ≤ "zzzzzzzz") : d ++ "#" ++ i ≤ d2 ++ "#zzzzzzzz" ↔ d ≤ d2 := by
  have h0 : d2 ++ "#zzzzzzzz" = (d2 ++ "#") ++ "zzzzzzzz" := by
    apply String.ext; simp [String.data_append]
  rw [h0, strLe_append_iff (d ++ "#") (d2 ++ "#") i "zzzzzzzz"
      (by simp [String.length_append, h]),
    strLt_append_iff d d2 "#" "#" h]
  constructor
  · rintro ((h1 | ⟨h1, h2⟩) | ⟨h1, h2⟩)
    · exact h1.le
    · exact absurd h2 (lt_irrefl _)
    · exact (strAppend_right_cancel h h1).le
  · intro h1
    rcases lt_or_eq_of_le h1 with h2 | rfl
    · exact Or.inl (Or.inl h2)
    · exact Or.inr ⟨rfl, hi⟩

theorem str_lt_of_head_lt {a b : String} {c d : Char} {cs ds : List Char}
    (ha : a.data = c :: cs) (hb : b.data = d :: ds) (h : c < d) : a < b := by
  rw [strLt_iff_data, ha, hb]
  exact List.Lex.rel h

theorem arxiv_lt_category (x y : String) : "ARXIV#" ++ x < "CATEGORY#" ++ y := by
  rw [strLt_iff_data, String.data_append, String.data_append]
  exact List.Lex.rel (by decide)

theorem arxiv_lt_author (x y : String) : "ARXIV#" ++ x < "AUTHOR#" ++ y := by
  rw [strLt_iff_data, String.data_append, String.data_append]
  exact List.Lex.cons (List.Lex.rel (by decide))

theorem arxiv_lt_keyword (x y : String) : "ARXIV#" ++ x < "KEYWORD#" ++ y := by
  rw [strLt_iff_data, String.data_append, String.data_append]
  exact List.Lex.rel (by decide)

/-- Executable lexicographic comparison of character lists. -/
def listLeB : List Char → List Char → Bool
  | [], _ => true
  | _ :: _, [] => false
  | a :: as, b :: bs => if a < b then true else if b < a then false else listLeB as bs

/-- Executable lexicographic comparison of strings (agrees with `≤`). -/
def strLeB (a b : String) : Bool := listLeB a.data b.data

theorem listLeB_iff : ∀ (l1 l2 : List Char),
    listLeB l1 l2 = true ↔ ¬ List.Lex (· < ·) l2 l1
  | [], l2 => by
    simp only [listLeB]
    exact ⟨fun _ h => List.Lex.not_nil_right _ _ h, fun _ => trivial⟩
  | a :: as, [] => by
    simp only [listLeB]
    constructor
    · intro h; cases h
    · intro h; exact absurd List.Lex.nil h
  | a :: as, b :: bs => by
    simp only [listLeB]
    by_cases hab : a < b
    · rw [if_pos hab]
      constructor
      · intro _ hlex
        cases hlex with
        | rel h1 => exact absurd h1 (asymm hab)
        | cons h1 => exact absurd hab (lt_irrefl _)
      · intro _; rfl
    · rw [if_neg hab]
      by_cases hba : b < a
      · rw [if_pos hba]
        constructor
        · intro h; cases h
        · intro h; exact absurd (List.Lex.rel hba) h
      · rw [if_neg hba]
        have heq : a = b := le_antisymm (not_lt.mp hba) (not_lt.mp hab)
        subst heq
        rw [listLeB_iff as bs]
        constructor
        · intro h hlex
          cases hlex with
          | rel h1 => exact absurd h1 (lt_irrefl _)
          | cons h1 => exact h h1
        · intro h hlex
          exact h (List.Lex.cons hlex)

theorem strLeB_iff (a b : String) : strLeB a b = true ↔ a ≤ b := by
  rw [strLeB, listLeB_iff a.data b.data, ← strLt_iff_data]
  exact not_lt

/-! ### Data model -/

/-- A normalized input record (one paper of the JSON input). -/
structure Paper where
  arxiv_id : String
  title : String
  authors : List String
  abstract : String
  categories : List String
  published : String
deriving DecidableEq, Repr

/-- A stored DynamoDB item.  Attributes that `transform_paper` sets only on
some item shapes are `Option`-valued (`none` models an absent attribute). -/
structure Item where
  PK : String
  SK : String
  GSI1PK : Option String := none
  GSI1SK : Option String := none
  GSI2PK : Option String := none
  GSI2SK : Option String := none
  GSI3PK : Option String := none
  GSI3SK : Option String := none
  arxiv_id : String
  title : String
  authors : List String
  abstract : Option String := none
  categories : List String
  keywords : Option (List String) := none
  published : String
deriving DecidableEq, Repr

/-- The per-category main-table item built by `transform_paper`. -/
def categoryItem (paper : Paper) (keywords : List String) (category : String) : Item :=
  { PK := "CATEGORY#" ++ category
    SK := strTake paper.published 10 ++ "#" ++ paper.arxiv_id
    arxiv_id := paper.arxiv_id
    title := paper.title
    authors := paper.authors
    abstract := some paper.abstract
    categories := paper.categories
    keywords := some keywords
    published := paper.published
    GSI2PK := some ("ARXIV#" ++ paper.arxiv_id)
    GSI2SK := some ("CATEGORY#" ++ category) }

/-- The per-author `AuthorIndex` item built by `transform_paper`. -/
def authorItem (paper : Paper) (author : String) : Item :=
  { PK := "ARXIV#" ++ paper.arxiv_id
    SK := "AUTHOR#" ++ author ++ "#" ++ strTake paper.published 10
    GSI1PK := some ("AUTHOR#" ++ author)
    GSI1SK := some (strTake paper.published 10 ++ "#" ++ paper.arxiv_id)
    arxiv_id := paper.arxiv_id
    title := paper.title
    authors := paper.authors
    categories := paper.categories
    published := paper.published }

/-- The per-keyword `KeywordIndex` item built by `transform_paper`. -/
def keywordItem (paper : Paper) (kw : String) : Item :=
  { PK := "ARXIV#" ++ paper.arxiv_id
    SK := "KEYWORD#" ++ kw ++ "#" ++ strTake paper.published 10
    GSI3PK := some ("KEYWORD#" ++ kw)
    GSI3SK := some (strTake paper.published 10 ++ "#" ++ paper.arxiv_id)
    arxiv_id := paper.arxiv_id
    title := paper.title
    authors := paper.authors
    categories := paper.categories
    published := paper.published }

/-- The canonical `PaperIdIndex` item built by `transform_paper`. -/
def paperIdItem (paper : Paper) (keywords : List String) : Item :=
  { PK := "ARXIV#" ++ paper.arxiv_id
    SK := "ARXIV#" ++ paper.arxiv_id
    GSI2PK := some ("ARXIV#" ++ paper.arxiv_id)
    GSI2SK := some ("ARXIV#" ++ paper.arxiv_id)
    arxiv_id := paper.arxiv_id
    title := paper.title
    authors := paper.authors
    abstract := some paper.abstract
    categories := paper.categories
    keywords := some keywords
    published := paper.published }

/-- Model of `transform_paper` from `load_data.py`: the write-time fan-out of
one paper into category, author, keyword and paper-id items. -/
def transform_paper (paper : Paper) : List Item :=
  let keywords := extract_keywords paper.abstract
  paper.categories.map (categoryItem paper keywords)
    ++ paper.authors.map (authorItem paper)
    ++ keywords.map (keywordItem paper)
    ++ [paperIdItem paper keywords]

/-! ### Store model -/

/-- The DynamoDB primary key of an item. -/
def itemKey (it : Item) : String × String := (it.PK, it.SK)

/-- Model of one DynamoDB `PutItem` as issued by `batch_writer().put_item`:
`PutItem` overwrites any existing item with the same primary key, otherwise
the item is added. -/
def putItem (store : List Item) (it : Item) : List Item :=
  if store.any (fun j => decide (itemKey j = itemKey it)) then
    store.map (fun j => if itemKey j = itemKey it then it else j)
  else store ++ [it]

/-- Model of `batch_write` from `load_data.py`: every item is put in turn. -/
def batch_write (store : List Item) (items : List Item) : List Item :=
  items.foldl putItem store

/-! ### Query functions -/

/-- The read-optimized projection that the query functions of
`query_papers.py` build from a stored item. -/
structure ResultRec where
  arxiv_id : String
  title : String
  authors : List String
  published : String
  categories : List String
deriving DecidableEq, Repr

/-- The projection applied to each returned item. -/
def projectRec (it : Item) : ResultRec :=
  { arxiv_id := it.arxiv_id, title := it.title, authors := it.authors,
    published := it.published, categories := it.categories }

/-- Ascending main-table sort-key order. -/
def skAsc (a b : Item) : Prop := a.SK ≤ b.SK

/-- Descending main-table sort-key order (`ScanIndexForward=False`). -/
def skDesc (a b : Item) : Prop := b.SK ≤ a.SK

/-- Ascending `PaperIdIndex` sort-key order. -/
def gsi2Asc (a b : Item) : Prop := a.GSI2SK.getD "" ≤ b.GSI2SK.getD ""

/-- Ascending `AuthorIndex` sort-key order. -/
def gsi1Asc (a b : Item) : Prop := a.GSI1SK.getD "" ≤ b.GSI1SK.getD ""

/-- Descending `KeywordIndex` sort-key order. -/
def gsi3Desc (a b : Item) : Prop := b.GSI3SK.getD "" ≤ a.GSI3SK.getD ""

instance : DecidableRel skAsc :=
  fun a b => decidable_of_iff (strLeB a.SK b.SK = true) (strLeB_iff _ _)
instance : DecidableRel skDesc :=
  fun a b => decidable_of_iff (strLeB b.SK a.SK = true) (strLeB_iff _ _)
instance : DecidableRel gsi2Asc :=
  fun a b => decidable_of_iff (strLeB (a.GSI2SK.getD "") (b.GSI2SK.getD "") = true)
    (strLeB_iff _ _)
instance : DecidableRel gsi1Asc :=
  fun a b => decidable_of_iff (strLeB (a.GSI1SK.getD "") (b.GSI1SK.getD "") = true)
    (strLeB_iff _ _)
instance : DecidableRel gsi3Desc :=
  fun a b => decidable_of_iff (strLeB (b.GSI3SK.getD "") (a.GSI3SK.getD "") = true)
    (strLeB_iff _ _)

instance : IsTotal Item skAsc := ⟨fun a b => le_total a.SK b.SK⟩
instance : IsTrans Item skAsc := ⟨fun _ _ _ h1 h2 => le_trans h1 h2⟩
instance : IsTotal Item skDesc := ⟨fun a b => le_total b.SK a.SK⟩
instance : IsTrans Item skDesc := ⟨fun _ _ _ h1 h2 => le_trans h2 h1⟩
instance : IsTotal Item gsi2Asc := ⟨fun a b => le_total (a.GSI2SK.getD "") (b.GSI2SK.getD "")⟩
instance : IsTrans Item gsi2Asc := ⟨fun _ _ _ h1 h2 => le_trans h1 h2⟩
instance : IsTotal Item gsi1Asc := ⟨fun a b => le_total (a.GSI1SK.getD "") (b.GSI1SK.getD "")⟩
instance : IsTrans Item gsi1Asc := ⟨fun _ _ _ h1 h2 => le_trans h1 h2⟩
instance : IsTotal Item gsi3Desc := ⟨fun a b => le_total (b.GSI3SK.getD "") (a.GSI3SK.getD "")⟩
instance : IsTrans Item gsi3Desc := ⟨fun _ _ _ h1 h2 => le_trans h2 h1⟩

/-- The main-table partition `pk`, in descending sort-key order (what an
unlimited query with `ScanIndexForward=False` returns). -/
def mainPartitionDesc (store : List Item) (pk : String) : List Item :=
  (store.filter (fun it => it.PK == pk)).insertionSort skDesc

/-- Backend errors observable at this layer. -/
inductive DbError where
  /-- Modelled from the DynamoDB API contract: `Query` rejects a `Limit`
  below 1 with a `ValidationException`. -/
  | validationException
  /-- A client-side rejection issued before calling the backend.  The spec
  posits it; nothing in the code produces it. -/
  | invalidArgument
deriving DecidableEq, Repr

/-- The query output shape shared by the query functions: the projected
results and `count = len(results)`. -/
structure QueryOut where
  results : List ResultRec
  count : Nat
deriving DecidableEq, Repr

instance : DecidableEq (Except DbError QueryOut) := fun
  | .error e1, .error e2 =>
    if h : e1 = e2 then .isTrue (by rw [h]) else .isFalse (by simp [h])
  | .ok a1, .ok a2 =>
    if h : a1 = a2 then .isTrue (by rw [h]) else .isFalse (by simp [h])
  | .error _, .ok _ => .isFalse (by simp)
  | .ok _, .error _ => .isFalse (by simp)

/-- Model of `query_recent_in_category` from `query_papers.py`: a main-table
query on partition `CATEGORY#<category>`, descending, with the caller's
`Limit` passed through to the backend unvalidated (the backend rejects a
limit below 1). -/
def query_recent_in_category (store : List Item) (category : String) (limit : Int) :
    Except DbError QueryOut :=
  if limit ≤ 0 then .error .validationException
  else
    let items := (mainPartitionDesc store ("CATEGORY#" ++ category)).take limit.toNat
    .ok { results := items.map projectRec, count := items.length }

/-- Model of `query_papers_in_date_range` from `query_papers.py`: key
condition `PK = CATEGORY#<cat> AND SK BETWEEN '<start>#' AND
'<end>#zzzzzzzz'` (inclusive bounds), ascending, no limit. -/
def query_papers_in_date_range (store : List Item) (category start_date end_date : String) :
    QueryOut :=
  let items := (store.filter (fun it => it.PK == ("CATEGORY#" ++ category)
      && decide ((start_date ++ "#") ≤ it.SK)
      && decide (it.SK ≤ (end_date ++ "#zzzzzzzz")))).insertionSort skAsc
  { results := items.map projectRec, count := items.length }

/-- The `PaperIdIndex` partition `ARXIV#<id>`, in ascending index sort-key
order (what the index query of `get_paper_by_id` returns). -/
def paperIdIndexItems (store : List Item) (arxiv_id : String) : List Item :=
  (store.filter (fun it => it.GSI2PK == some ("ARXIV#" ++ arxiv_id))).insertionSort gsi2Asc

/-- Model of `get_paper_by_id` from `query_papers.py`: queries the
`PaperIdIndex` partition of the id and keeps `Items[0]` if any. -/
def get_paper_by_id (store : List Item) (arxiv_id : String) : QueryOut :=
  match paperIdIndexItems store arxiv_id with
  | [] => { results := [], count := 0 }
  | i :: _ => { results := [projectRec i], count := 1 }

/-- Model of `query_papers_by_keyword` from `query_papers.py`: a
`KeywordIndex` query on partition `KEYWORD#<keyword.lower()>`, descending,
with the caller's `Limit` passed through unvalidated. -/
def query_papers_by_keyword (store : List Item) (keyword : String) (limit : Int) :
    Except DbError QueryOut :=
  if limit ≤ 0 then .error .validationException
  else
    let items := ((store.filter
        (fun it => it.GSI3PK == some ("KEYWORD#" ++ strLower keyword))).insertionSort
        gsi3Desc).take limit.toNat
    .ok { results := items.map projectRec, count := items.length }

/-- Model of the primary path of `api_server.query_papers_by_author`: an
`AuthorIndex` query on partition `AUTHOR#<name>` with the caller's limit. -/
def authorIndexQuery (store : List Item) (author_name : String) (limit : Nat) : List Item :=
  ((store.filter
      (fun it => it.GSI1PK == some ("AUTHOR#" ++ author_name))).insertionSort gsi1Asc).take limit

/-- Model of the fallback path of `api_server.query_papers_by_author` (used
when the index is missing): a full table scan with filter
`Attr('authors').contains(author_name)` and no limit. -/
def authorScanFallback (store : List Item) (author_name : String) : List Item :=
  store.filter (fun it => it.authors.contains author_name)

/-- The item set written when a list of papers is ingested
(`transform_paper` fanned out over the batch, as in `main`). -/
def storeOf (papers : List Paper) : List Item :=
  papers.flatMap transform_paper

/-- The recent-in-category query without the `Limit` parameter: the whole
category partition in descending sort-key order, projected. -/
def query_recent_unlimited (store : List Item) (category : String) : List ResultRec :=
  (mainPartitionDesc store ("CATEGORY#" ++ category)).map projectRec

/-- Prefix test on strings (by code points). -/
def strStartsWith (p s : String) : Bool := p.data.isPrefixOf s.data

/-! ### Key-shape classification -/

/-- A character allowed in a well-formed `YYYY-MM-DD` date: digit or dash. -/
def isDateChar (c : Char) : Bool := c.isDigit || c == '-'

theorem dateChar_ne {c : Char} (h : isDateChar c = true) {x : Char}
    (hx : isDateChar x = false) : c ≠ x := by
  intro heq; subst heq; rw [h] at hx; cases hx

theorem startsWith_false_of_head_ne {p s : String} {c d : Char} {u v : List Char}
    (hp : p.data = c :: u) (hs : s.data = d :: v) (h : c ≠ d) : strStartsWith p s = false := by
  rw [strStartsWith, hp, hs]
  simp [List.isPrefixOf, h]

theorem startsWith_append (p r : String) : strStartsWith p (p ++ r) = true := by
  rw [strStartsWith]
  exact List.isPrefixOf_iff_prefix.mpr ⟨r.data, (String.data_append p r).symm⟩

theorem sk_data (d i : String) : (d ++ "#" ++ i).data = d.data ++ '#' :: i.data := by
  simp [String.data_append]

theorem cat_sk_not_author (d i : String) (hd : ∀ c ∈ d.data, isDateChar c = true) :
    strStartsWith "AUTHOR#" (d ++ "#" ++ i) = false := by
  cases hcase : d.data with
  | nil =>
    apply startsWith_false_of_head_ne (c := 'A') (d := '#')
        (u := ['U','T','H','O','R','#']) (v := i.data) rfl
    · rw [sk_data, hcase]; rfl
    · decide
  | cons c cs =>
    apply startsWith_false_of_head_ne (c := 'A') (d := c)
        (u := ['U','T','H','O','R','#']) (v := cs ++ '#' :: i.data) rfl
    · rw [sk_data, hcase]; rfl
    · exact (dateChar_ne (hd c (by rw [hcase]; exact List.mem_cons_self c cs)) (by decide)).symm

theorem cat_sk_not_keyword (d i : String) (hd : ∀ c ∈ d.data, isDateChar c = true) :
    strStartsWith "KEYWORD#" (d ++ "#" ++ i) = false := by
  cases hcase : d.data with
  | nil =>
    apply startsWith_false_of_head_ne (c := 'K') (d := '#')
        (u := ['E','Y','W','O','R','D','#']) (v := i.data) rfl
    · rw [sk_data, hcase]; rfl
    · decide
  | cons c cs =>
    apply startsWith_false_of_head_ne (c := 'K') (d := c)
        (u := ['E','Y','W','O','R','D','#']) (v := cs ++ '#' :: i.data) rfl
    · rw [sk_data, hcase]; rfl
    · exact (dateChar_ne (hd c (by rw [hcase]; exact List.mem_cons_self c cs)) (by decide)).symm

theorem author_sk_startsWith (a d : String) :
    strStartsWith "AUTHOR#" ("AUTHOR#" ++ a ++ "#" ++ d) = true := by
  rw [strStartsWith]
  apply List.isPrefixOf_iff_prefix.mpr
  exact ⟨a.data ++ '#' :: d.data, by simp [String.data_append]⟩

theorem keyword_sk_startsWith (k d : String) :
    strStartsWith "KEYWORD#" ("KEYWORD#" ++ k ++ "#" ++ d) = true := by
  rw [strStartsWith]
  apply List.isPrefixOf_iff_prefix.mpr
  exact ⟨k.data ++ '#' :: d.data, by simp [String.data_append]⟩

/-! ### Write semantics: overwrite puts and idempotent re-ingestion -/


/-- Replacement of one stored item by a put of `it` (same primary key). -/
def repItem (it j : Item) : Item := if itemKey j = itemKey it then it else j

/-- Net effect of a sequence of puts on one already-stored item. -/
def chainRep (l : List Item) (j : Item) : Item := l.foldl (fun cur x => repItem x cur) j

/-- The primary key `k` is present in the store. -/
def KeyIn (k : String × String) (s : List Item) : Prop := ∃ j ∈ s, itemKey j = k

theorem putItem_of_keyIn {s : List Item} {it : Item} (h : KeyIn (itemKey it) s) :
    putItem s it = s.map (repItem it) := by
  rw [putItem, if_pos]
  · rfl
  · rcases h with ⟨j, hj, hkey⟩
    exact List.any_eq_true.mpr ⟨j, hj, decide_eq_true hkey⟩

theorem putItem_of_not_keyIn {s : List Item} {it : Item} (h : ¬ KeyIn (itemKey it) s) :
    putItem s it = s ++ [it] := by
  rw [putItem, if_neg]
  intro hany
  rcases List.any_eq_true.mp hany with ⟨j, hj, hkey⟩
  exact h ⟨j, hj, of_decide_eq_true hkey⟩

theorem repItem_key (it j : Item) : itemKey (repItem it j) = itemKey j := by
  rw [repItem]
  split
  · rename_i h; exact h.symm
  · rfl

theorem keyIn_putItem_self (s : List Item) (it : Item) : KeyIn (itemKey it) (putItem s it) := by
  by_cases h : KeyIn (itemKey it) s
  · rw [putItem_of_keyIn h]
    rcases h with ⟨j, hj, hkey⟩
    exact ⟨repItem it j, List.mem_map_of_mem _ hj, by rw [repItem_key, hkey]⟩
  · rw [putItem_of_not_keyIn h]
    exact ⟨it, by simp, rfl⟩

theorem keyIn_putItem_mono {k : String × String} {s : List Item} (it : Item)
    (h : KeyIn k s) : KeyIn k (putItem s it) := by
  by_cases hc : KeyIn (itemKey it) s
  · rw [putItem_of_keyIn hc]
    rcases h with ⟨j, hj, hkey⟩
    exact ⟨repItem it j, List.mem_map_of_mem _ hj, by rw [repItem_key, hkey]⟩
  · rw [putItem_of_not_keyIn hc]
    rcases h with ⟨j, hj, hkey⟩
    exact ⟨j, List.mem_append_left _ hj, hkey⟩

theorem keyIn_batch_write_mono {k : String × String} :
    ∀ (l s : List Item), KeyIn k s → KeyIn k (batch_write s l)
  | [], _, h => h
  | x :: l, s, h => keyIn_batch_write_mono l (putItem s x) (keyIn_putItem_mono x h)

theorem keyIn_batch_write :
    ∀ (l s : List Item), ∀ it ∈ l, KeyIn (itemKey it) (batch_write s l)
  | [], _, _, h => absurd h (List.not_mem_nil _)
  | x :: l, s, it, h => by
    rcases List.mem_cons.mp h with rfl | h'
    · exact keyIn_batch_write_mono l (putItem s it) (keyIn_putItem_self s it)
    · exact keyIn_batch_write l (putItem s x) it h'

theorem chainRep_key : ∀ (l : List Item) (j : Item), itemKey (chainRep l j) = itemKey j
  | [], _ => rfl
  | x :: l, j => by
    show itemKey (chainRep l (repItem x j)) = _
    rw [chainRep_key l (repItem x j), repItem_key]

theorem keyIn_map_repItem {k : String × String} {s : List Item} (it : Item) :
    KeyIn k (s.map (repItem it)) ↔ KeyIn k s := by
  constructor
  · rintro ⟨j, hj, hkey⟩
    rcases List.mem_map.mp hj with ⟨j0, hj0, rfl⟩
    exact ⟨j0, hj0, by rw [← repItem_key it j0]; exact hkey⟩
  · rintro ⟨j, hj, hkey⟩
    exact ⟨repItem it j, List.mem_map_of_mem _ hj, by rw [repItem_key]; exact hkey⟩

theorem batch_write_eq_map :
    ∀ (l s : List Item), (∀ it ∈ l, KeyIn (itemKey it) s) →
      batch_write s l = s.map (chainRep l)
  | [], s, _ => by
    show s = s.map (chainRep [])
    have : ∀ j ∈ s, chainRep [] j = j := fun j _ => rfl
    rw [List.map_congr_left this]
    simp
  | x :: l, s, hall => by
    show batch_write (putItem s x) l = _
    rw [putItem_of_keyIn (hall x (by simp))]
    rw [batch_write_eq_map l (s.map (repItem x))
      (fun it hit => (keyIn_map_repItem x).mpr (hall it (List.mem_cons_of_mem _ hit)))]
    rw [List.map_map]
    rfl

theorem chainRep_eq_of_key_eq :
    ∀ (l : List Item) (a b : Item), itemKey a = itemKey b →
      (∃ x ∈ l, itemKey x = itemKey a) → chainRep l a = chainRep l b
  | [], _, _, _, hx => by rcases hx with ⟨x, hx, -⟩; exact absurd hx (List.not_mem_nil _)
  | x :: l, a, b, hk, hx => by
    show chainRep l (repItem x a) = chainRep l (repItem x b)
    by_cases hxa : itemKey x = itemKey a
    · rw [repItem, if_pos hxa.symm, repItem, if_pos (hk ▸ hxa).symm]
    · rw [repItem, if_neg (fun h => hxa h.symm), repItem,
        if_neg (fun h => hxa (hk ▸ h.symm))]
      rcases hx with ⟨y, hy, hkey⟩
      rcases List.mem_cons.mp hy with rfl | hy'
      · exact absurd hkey hxa
      · exact chainRep_eq_of_key_eq l a b hk ⟨y, hy', hkey⟩

theorem chainRep_of_no_key :
    ∀ (l : List Item) (a : Item), (∀ x ∈ l, itemKey x ≠ itemKey a) → chainRep l a = a
  | [], _, _ => rfl
  | x :: l, a, h => by
    show chainRep l (repItem x a) = a
    rw [repItem, if_neg (fun heq => h x (by simp) (heq.symm))]
    exact chainRep_of_no_key l a (fun y hy => h y (List.mem_cons_of_mem _ hy))

theorem mem_putItem_of_key_ne {s : List Item} {it j : Item}
    (hj : j ∈ putItem s it) (hne : itemKey it ≠ itemKey j) : j ∈ s := by
  by_cases hc : KeyIn (itemKey it) s
  · rw [putItem_of_keyIn hc] at hj
    rcases List.mem_map.mp hj with ⟨j0, hj0, heq⟩
    rw [repItem] at heq
    split at heq
    · exact absurd (heq ▸ rfl) hne
    · exact heq ▸ hj0
  · rw [putItem_of_not_keyIn hc] at hj
    rcases List.mem_append.mp hj with h | h
    · exact h
    · rcases List.mem_singleton.mp h with rfl
      exact absurd rfl hne

theorem mem_batch_write_of_untouched :
    ∀ (l s : List Item) (j : Item), j ∈ batch_write s l →
      (∀ x ∈ l, itemKey x ≠ itemKey j) → j ∈ s
  | [], _, _, hj, _ => hj
  | x :: l, s, j, hj, h => by
    have h1 : j ∈ putItem s x :=
      mem_batch_write_of_untouched l (putItem s x) j hj
        (fun y hy => h y (List.mem_cons_of_mem _ hy))
    exact mem_putItem_of_key_ne h1 (h x (by simp))

theorem chainRep_fixed :
    ∀ (l s : List Item) (j : Item), j ∈ batch_write s l → chainRep l j = j
  | [], _, _, _ => rfl
  | x :: l, s, j, hj => by
    show chainRep l (repItem x j) = j
    by_cases hk : itemKey j = itemKey x
    · rw [repItem, if_pos hk]
      by_cases hx : ∃ y ∈ l, itemKey y = itemKey x
      · rw [chainRep_eq_of_key_eq l x j (hk.symm) hx]
        exact chainRep_fixed l (putItem s x) j hj
      · rw [chainRep_of_no_key l x (fun y hy hkey => hx ⟨y, hy, hkey⟩)]
        push_neg at hx
        have h1 : j ∈ putItem s x :=
          mem_batch_write_of_untouched l (putItem s x) j hj
            (fun y hy heq => hx y hy (heq.trans hk))
        by_cases hc : KeyIn (itemKey x) s
        · rw [putItem_of_keyIn hc] at h1
          rcases List.mem_map.mp h1 with ⟨j0, hj0, heq⟩
          rw [repItem] at heq
          split at heq
          · exact heq
          · rename_i hne
            exact absurd (heq ▸ hk) hne
        · rw [putItem_of_not_keyIn hc] at h1
          rcases List.mem_append.mp h1 with h | h
          · exact absurd ⟨j, h, hk⟩ hc
          · exact (List.mem_singleton.mp h).symm
    · rw [repItem, if_neg hk]
      exact chainRep_fixed l (putItem s x) j hj

theorem batch_write_idem (s l : List Item) :
    batch_write (batch_write s l) l = batch_write s l := by
  rw [batch_write_eq_map l (batch_write s l) (fun it hit => keyIn_batch_write l s it hit)]
  have : ∀ j ∈ batch_write s l, chainRep l j = j :=
    fun j hj => chainRep_fixed l s j hj
  rw [List.map_congr_left this]
  simp

/-! ### Claims C2, C6, C7, C8 -/


/-- Claim C6, counterexample.  On the text "The model uses attention based
transformers. Transformers are powerful." the program does not return the
four keywords the claim lists: `uses` is not in `STOPWORDS` (the set has
`use` and `using` but not `uses`), so it survives the filter. -/
theorem C6_counterexample :
    extract_keywords "The model uses attention based transformers. Transformers are powerful." 10
      ≠ ["transformers", "model", "attention", "powerful"] := by decide

/-- Claim C6, amended.  On that text, keyword extraction yields exactly
`["transformers", "model", "uses", "attention", "powerful"]`, ordered by
descending frequency (transformers appears twice) and then first
occurrence. -/
theorem C6_keyword_scenario :
    extract_keywords "The model uses attention based transformers. Transformers are powerful." 10
      = ["transformers", "model", "uses", "attention", "powerful"] := by decide

/-- Claim C2, counterexample.  A put whose key already exists is not a
no-op: `putItem` (DynamoDB `PutItem`, as issued by `batch_write`) replaces
the stored item, so a colliding write with different content changes the
store. -/
theorem C2_counterexample :
    let iA : Item :=
      { PK := "CATEGORY#cs.AI"
        SK := "2024-01-01#1234.5678"
        arxiv_id := "1234.5678"
        title := "old title"
        authors := ["A"]
        categories := ["cs.AI"]
        published := "2024-01-01T00:00:00Z" }
    let iB : Item := { iA with title := "new title" }
    itemKey iB = itemKey iA ∧ iB ≠ iA ∧ putItem [iA] iB = [iB] := by decide

/-- Claim C2, amended.  Although `put` overwrites rather than skipping,
ingesting the same record twice leaves the collection byte-identical to the
state after the first ingestion (`transform_paper` is deterministic, so the
second batch rewrites each key with the value it already has). -/
theorem C2_reingest_idempotent (store : List Item) (paper : Paper) :
    batch_write (batch_write store (transform_paper paper)) (transform_paper paper)
      = batch_write store (transform_paper paper) :=
  batch_write_idem store (transform_paper paper)

/-- Claim C7, counterexample.  A query with limit 0 is not rejected
client-side with an `InvalidArgument`: the limit is passed to the backend,
whose `ValidationException` comes back instead. -/
theorem C7_counterexample :
    query_recent_in_category [] "cs.AI" 0 = .error .validationException ∧
      (Except.error DbError.validationException : Except DbError QueryOut)
        ≠ .error .invalidArgument := ⟨rfl, by simp⟩

/-- Claim C7, amended.  `query_recent_in_category` and
`query_papers_by_keyword` perform no limit validation of their own: for any
limit of 0 or below, the raw limit reaches the backend query call and the
error surfaced is the backend ValidationException. -/
theorem C7_no_limit_validation (store : List Item) (category keyword : String) (limit : Int)
    (h : limit ≤ 0) :
    query_recent_in_category store category limit = .error .validationException ∧
    query_papers_by_keyword store keyword limit = .error .validationException := by
  constructor
  · rw [query_recent_in_category, if_pos h]
  · rw [query_papers_by_keyword, if_pos h]

/-- Witness for the amended claim C7 at limit 0 on an empty store. -/
theorem C7_no_limit_validation_witness :
    query_recent_in_category [] "cs.AI" 0 = .error .validationException ∧
    query_papers_by_keyword [] "transformers" 0 = .error .validationException :=
  C7_no_limit_validation [] "cs.AI" "transformers" 0 (by decide)

/-- Claim C8, counterexample.  A record whose id contains the delimiter
`#` is not rejected: `transform_paper` returns the full item set, embedding
the id verbatim in every composite key. -/
theorem C8_counterexample :
    let p : Paper :=
      { arxiv_id := "ab#cd"
        title := "T"
        authors := ["A"]
        abstract := ""
        categories := ["cs.AI"]
        published := "2024-01-01T00:00:00Z" }
    (transform_paper p).length = 3 ∧
    (transform_paper p).map Item.SK =
      ["2024-01-01#ab#cd", "AUTHOR#A#2024-01-01", "ARXIV#ab#cd"] := by decide

/-- Claim C8, amended.  No `MalformedKey` check exists: for every paper
whose id contains `#`, `transform_paper` still produces the canonical by-id
item, and whose sort key then contains the delimiter at least twice - the
ambiguity the spec wanted to rule out. -/
theorem C8_no_delimiter_check (p : Paper) (h : '#' ∈ p.arxiv_id.data) :
    paperIdItem p (extract_keywords p.abstract) ∈ transform_paper p ∧
    2 ≤ (paperIdItem p (extract_keywords p.abstract)).SK.data.count '#' := by
  constructor
  · rw [transform_paper]
    simp [List.mem_append]
  · show 2 ≤ ("ARXIV#" ++ p.arxiv_id).data.count '#'
    rw [String.data_append, List.count_append]
    have h1 : (("ARXIV#" : String).data.count '#') = 1 := by decide
    have h2 : 0 < p.arxiv_id.data.count '#' := List.count_pos_iff.mpr h
    omega

/-- Witness for the amended claim C8 on a paper with id `ab#cd`. -/
theorem C8_no_delimiter_check_witness :
    let p : Paper :=
      { arxiv_id := "ab#cd"
        title := "T"
        authors := ["A"]
        abstract := ""
        categories := ["cs.AI"]
        published := "2024-01-01T00:00:00Z" }
    paperIdItem p (extract_keywords p.abstract) ∈ transform_paper p ∧
    2 ≤ (paperIdItem p (extract_keywords p.abstract)).SK.data.count '#' :=
  C8_no_delimiter_check
    { arxiv_id := "ab#cd"
      title := "T"
      authors := ["A"]
      abstract := ""
      categories := ["cs.AI"]
      published := "2024-01-01T00:00:00Z" }
    (by decide)

/-! ### Claim C1 -/


theorem extract_keywords_length_le (text : String) (n : Nat) :
    (extract_keywords text n).length ≤ n := by
  rw [extract_keywords, mostCommon]
  exact List.length_take_le _ _

theorem string_append_assoc (a b c : String) : a ++ b ++ c = a ++ (b ++ c) := by
  apply String.ext
  simp [String.data_append]

/-- Claim C1.  For every record whose publication date (first ten
characters of `published`) is made of digits and dashes, `transform_paper`
produces exactly one by-category item per category, one by-author item per
author, one by-keyword item per extracted keyword, exactly one canonical
by-id item, and at most ten keywords. -/
theorem C1_fanout_counts (p : Paper)
    (hdate : ∀ c ∈ (strTake p.published 10).data, isDateChar c = true) :
    ((transform_paper p).filter (fun it => strStartsWith "CATEGORY#" it.PK)).length
        = p.categories.length ∧
    ((transform_paper p).filter (fun it => strStartsWith "AUTHOR#" it.SK)).length
        = p.authors.length ∧
    ((transform_paper p).filter (fun it => strStartsWith "KEYWORD#" it.SK)).length
        = (extract_keywords p.abstract).length ∧
    ((transform_paper p).filter (fun it =>
        decide (it.PK = "ARXIV#" ++ p.arxiv_id ∧ it.SK = "ARXIV#" ++ p.arxiv_id))).length = 1 ∧
    (extract_keywords p.abstract).length ≤ 10 := by
  have harx : ∀ x : String, strStartsWith "CATEGORY#" ("ARXIV#" ++ x) = false := by
    intro x; simp [strStartsWith, String.data_append, List.isPrefixOf]
  have harxA : ∀ x : String, strStartsWith "AUTHOR#" ("ARXIV#" ++ x) = false := by
    intro x; simp [strStartsWith, String.data_append, List.isPrefixOf]
  have harxK : ∀ x : String, strStartsWith "KEYWORD#" ("ARXIV#" ++ x) = false := by
    intro x; simp [strStartsWith, String.data_append, List.isPrefixOf]
  have hcatT : ∀ x : String, strStartsWith "CATEGORY#" ("CATEGORY#" ++ x) = true :=
    fun x => startsWith_append "CATEGORY#" x
  refine ⟨?_, ?_, ?_, ?_, extract_keywords_length_le p.abstract 10⟩
  · rw [transform_paper]
    simp only [List.filter_append, List.length_append]
    rw [List.filter_eq_self.mpr (by
      intro it hit
      rcases List.mem_map.mp hit with ⟨c, -, rfl⟩
      exact hcatT c)]
    rw [List.filter_eq_nil_iff.mpr (by
      intro it hit
      rcases List.mem_map.mp hit with ⟨a, -, rfl⟩
      simp [authorItem, harx])]
    rw [List.filter_eq_nil_iff.mpr (by
      intro it hit
      rcases List.mem_map.mp hit with ⟨k, -, rfl⟩
      simp [keywordItem, harx])]
    rw [List.filter_eq_nil_iff.mpr (by
      intro it hit
      rcases List.mem_singleton.mp hit with rfl
      simp [paperIdItem, harx])]
    simp
  · rw [transform_paper]
    simp only [List.filter_append, List.length_append]
    rw [List.filter_eq_nil_iff.mpr (by
      intro it hit
      rcases List.mem_map.mp hit with ⟨c, -, rfl⟩
      simp only [Bool.not_eq_true]
      show strStartsWith "AUTHOR#" (strTake p.published 10 ++ "#" ++ p.arxiv_id) = false
      exact cat_sk_not_author _ _ hdate)]
    rw [List.filter_eq_self.mpr (by
      intro it hit
      rcases List.mem_map.mp hit with ⟨a, -, rfl⟩
      exact author_sk_startsWith a (strTake p.published 10))]
    rw [List.filter_eq_nil_iff.mpr (by
      intro it hit
      rcases List.mem_map.mp hit with ⟨k, -, rfl⟩
      simp only [Bool.not_eq_true]
      show strStartsWith "AUTHOR#" ("KEYWORD#" ++ k ++ "#" ++ strTake p.published 10) = false
      apply startsWith_false_of_head_ne (c := 'A') (d := 'K')
          (u := ['U','T','H','O','R','#'])
          (v := ['E','Y','W','O','R','D','#'] ++ (k.data ++ '#' :: (strTake p.published 10).data)) rfl
      · simp [String.data_append]
      · decide)]
    rw [List.filter_eq_nil_iff.mpr (by
      intro it hit
      rcases List.mem_singleton.mp hit with rfl
      simp [paperIdItem, harxA])]
    simp
  · rw [transform_paper]
    simp only [List.filter_append, List.length_append]
    rw [List.filter_eq_nil_iff.mpr (by
      intro it hit
      rcases List.mem_map.mp hit with ⟨c, -, rfl⟩
      simp only [Bool.not_eq_true]
      show strStartsWith "KEYWORD#" (strTake p.published 10 ++ "#" ++ p.arxiv_id) = false
      exact cat_sk_not_keyword _ _ hdate)]
    rw [List.filter_eq_nil_iff.mpr (by
      intro it hit
      rcases List.mem_map.mp hit with ⟨a, -, rfl⟩
      simp only [Bool.not_eq_true]
      show strStartsWith "KEYWORD#" ("AUTHOR#" ++ a ++ "#" ++ strTake p.published 10) = false
      apply startsWith_false_of_head_ne (c := 'K') (d := 'A')
          (u := ['E','Y','W','O','R','D','#'])
          (v := ['U','T','H','O','R','#'] ++ (a.data ++ '#' :: (strTake p.published 10).data)) rfl
      · simp [String.data_append]
      · decide)]
    rw [List.filter_eq_self.mpr (by
      intro it hit
      rcases List.mem_map.mp hit with ⟨k, -, rfl⟩
      exact keyword_sk_startsWith k (strTake p.published 10))]
    rw [List.filter_eq_nil_iff.mpr (by
      intro it hit
      rcases List.mem_singleton.mp hit with rfl
      simp [paperIdItem, harxK])]
    simp
  · rw [transform_paper]
    simp only [List.filter_append, List.length_append]
    rw [List.filter_eq_nil_iff.mpr (by
      intro it hit
      rcases List.mem_map.mp hit with ⟨c, -, rfl⟩
      simp only [Bool.not_eq_true, decide_eq_false_iff_not]
      rintro ⟨hpk, -⟩
      exact absurd hpk.symm (ne_of_lt (arxiv_lt_category p.arxiv_id c)))]
    rw [List.filter_eq_nil_iff.mpr (by
      intro it hit
      rcases List.mem_map.mp hit with ⟨a, -, rfl⟩
      simp only [Bool.not_eq_true, decide_eq_false_iff_not]
      rintro ⟨-, hsk⟩
      rw [show (authorItem p a).SK = "AUTHOR#" ++ a ++ "#" ++ strTake p.published 10 from rfl,
        string_append_assoc, string_append_assoc] at hsk
      exact absurd hsk.symm (ne_of_lt (arxiv_lt_author p.arxiv_id _)))]
    rw [List.filter_eq_nil_iff.mpr (by
      intro it hit
      rcases List.mem_map.mp hit with ⟨k, -, rfl⟩
      simp only [Bool.not_eq_true, decide_eq_false_iff_not]
      rintro ⟨-, hsk⟩
      rw [show (keywordItem p k).SK = "KEYWORD#" ++ k ++ "#" ++ strTake p.published 10 from rfl,
        string_append_assoc, string_append_assoc] at hsk
      exact absurd hsk.symm (ne_of_lt (arxiv_lt_keyword p.arxiv_id _)))]
    simp [paperIdItem]

/-- Witness for claim C1 on a two-category, two-author record. -/
theorem C1_fanout_counts_witness :
    let p : Paper :=
      { arxiv_id := "2401.00001"
        title := "T"
        authors := ["Alice", "Bob"]
        abstract := "transformers transformers attention"
        categories := ["cs.AI", "cs.CL"]
        published := "2024-01-01T00:00:00Z" }
    ((transform_paper p).filter (fun it => strStartsWith "CATEGORY#" it.PK)).length
        = p.categories.length ∧
    ((transform_paper p).filter (fun it => strStartsWith "AUTHOR#" it.SK)).length
        = p.authors.length ∧
    ((transform_paper p).filter (fun it => strStartsWith "KEYWORD#" it.SK)).length
        = (extract_keywords p.abstract).length ∧
    ((transform_paper p).filter (fun it =>
        decide (it.PK = "ARXIV#" ++ p.arxiv_id ∧ it.SK = "ARXIV#" ++ p.arxiv_id))).length = 1 ∧
    (extract_keywords p.abstract).length ≤ 10 :=
  C1_fanout_counts
    { arxiv_id := "2401.00001"
      title := "T"
      authors := ["Alice", "Bob"]
      abstract := "transformers transformers attention"
      categories := ["cs.AI", "cs.CL"]
      published := "2024-01-01T00:00:00Z" }
    (by decide)

/-! ### Membership of written items and claims C3, C4, C9 -/

theorem mem_transform_paper {it : Item} {p : Paper} :
    it ∈ transform_paper p ↔
      (∃ c ∈ p.categories, it = categoryItem p (extract_keywords p.abstract) c) ∨
      (∃ a ∈ p.authors, it = authorItem p a) ∨
      (∃ k ∈ extract_keywords p.abstract, it = keywordItem p k) ∨
      it = paperIdItem p (extract_keywords p.abstract) := by
  rw [transform_paper]
  simp only [List.mem_append, List.mem_map, List.mem_singleton]
  constructor
  · rintro (((⟨c, hc, rfl⟩ | ⟨a, ha, rfl⟩) | ⟨k, hk, rfl⟩) | rfl)
    · exact Or.inl ⟨c, hc, rfl⟩
    · exact Or.inr (Or.inl ⟨a, ha, rfl⟩)
    · exact Or.inr (Or.inr (Or.inl ⟨k, hk, rfl⟩))
    · exact Or.inr (Or.inr (Or.inr rfl))
  · rintro (⟨c, hc, rfl⟩ | ⟨a, ha, rfl⟩ | ⟨k, hk, rfl⟩ | rfl)
    · exact Or.inl (Or.inl (Or.inl ⟨c, hc, rfl⟩))
    · exact Or.inl (Or.inl (Or.inr ⟨a, ha, rfl⟩))
    · exact Or.inl (Or.inr ⟨k, hk, rfl⟩)
    · exact Or.inr rfl

theorem mem_storeOf {it : Item} {papers : List Paper} :
    it ∈ storeOf papers ↔ ∃ p ∈ papers, it ∈ transform_paper p := by
  rw [storeOf]
  simp [List.mem_flatMap]

theorem mem_storeOf_of_paper {it : Item} {p : Paper} {papers : List Paper}
    (hp : p ∈ papers) (hit : it ∈ transform_paper p) : it ∈ storeOf papers :=
  mem_storeOf.mpr ⟨p, hp, hit⟩

/-- Only category items carry a `CATEGORY#` partition key. -/
theorem pk_eq_category_iff {it : Item} {p : Paper} (hit : it ∈ transform_paper p)
    (cat : String) :
    it.PK = "CATEGORY#" ++ cat →
      ∃ c ∈ p.categories, it = categoryItem p (extract_keywords p.abstract) c := by
  intro hpk
  rcases mem_transform_paper.mp hit with h | ⟨a, -, rfl⟩ | ⟨k, -, rfl⟩ | rfl
  · exact h
  · exact absurd hpk (ne_of_lt (arxiv_lt_category p.arxiv_id cat))
  · exact absurd hpk (ne_of_lt (arxiv_lt_category p.arxiv_id cat))
  · exact absurd hpk (ne_of_lt (arxiv_lt_category p.arxiv_id cat))

/-- Only author items carry a `GSI1PK`. -/
theorem gsi1pk_some {it : Item} {p : Paper} (hit : it ∈ transform_paper p) {s : String}
    (h : it.GSI1PK = some s) : ∃ a ∈ p.authors, it = authorItem p a ∧ s = "AUTHOR#" ++ a := by
  rcases mem_transform_paper.mp hit with ⟨c, -, rfl⟩ | ⟨a, ha, rfl⟩ | ⟨k, -, rfl⟩ | rfl
  · exact absurd h (by simp [categoryItem])
  · exact ⟨a, ha, rfl, by
      rw [show (authorItem p a).GSI1PK = some ("AUTHOR#" ++ a) from rfl] at h
      exact (Option.some.injEq .. ▸ h).symm⟩
  · exact absurd h (by simp [keywordItem])
  · exact absurd h (by simp [paperIdItem])

/-- Only category and paper-id items carry a `GSI2PK`, and it is `ARXIV#<id>`. -/
theorem gsi2pk_some {it : Item} {p : Paper} (hit : it ∈ transform_paper p) {s : String}
    (h : it.GSI2PK = some s) :
    s = "ARXIV#" ++ p.arxiv_id ∧
      ((∃ c ∈ p.categories, it = categoryItem p (extract_keywords p.abstract) c) ∨
       it = paperIdItem p (extract_keywords p.abstract)) := by
  rcases mem_transform_paper.mp hit with ⟨c, hc, rfl⟩ | ⟨a, -, rfl⟩ | ⟨k, -, rfl⟩ | rfl
  · refine ⟨?_, Or.inl ⟨c, hc, rfl⟩⟩
    rw [show (categoryItem p (extract_keywords p.abstract) c).GSI2PK
        = some ("ARXIV#" ++ p.arxiv_id) from rfl] at h
    exact (Option.some.injEq .. ▸ h).symm
  · exact absurd h (by simp [authorItem])
  · exact absurd h (by simp [keywordItem])
  · refine ⟨?_, Or.inr rfl⟩
    rw [show (paperIdItem p (extract_keywords p.abstract)).GSI2PK
        = some ("ARXIV#" ++ p.arxiv_id) from rfl] at h
    exact (Option.some.injEq .. ▸ h).symm

/-- Every item written for paper `p` carries `p`'s authors and id. -/
theorem item_fields {it : Item} {p : Paper} (hit : it ∈ transform_paper p) :
    it.authors = p.authors ∧ it.arxiv_id = p.arxiv_id ∧ it.published = p.published := by
  rcases mem_transform_paper.mp hit with ⟨c, -, rfl⟩ | ⟨a, -, rfl⟩ | ⟨k, -, rfl⟩ | rfl
  · exact ⟨rfl, rfl, rfl⟩
  · exact ⟨rfl, rfl, rfl⟩
  · exact ⟨rfl, rfl, rfl⟩
  · exact ⟨rfl, rfl, rfl⟩



theorem strTake_length (s : String) (n : Nat) (h : n ≤ s.length) : (strTake s n).length = n := by
  show (s.data.take n).length = n
  rw [List.length_take]
  exact Nat.min_eq_left h

theorem le_zzz_of_take1 (s : String) (h : ∀ c ∈ s.data.take 1, c < 'z') :
    s ≤ "zzzzzzzz" := by
  apply le_zzz
  intro c hc
  cases hs : s.data with
  | nil => rw [hs] at hc; cases hc
  | cons a tl =>
    rw [hs] at hc
    injection hc with h1
    subst h1
    exact h a (by rw [hs]; simp)

/-- Claim C3.  Whenever `query_recent_in_category` returns a result over
an ingested store (all publication timestamps at least ten characters), the
results are non-increasing in publication date, and results with equal date
have ids ordered consistently with the descending lexicographic order of
the `<date>#<id>` sort keys written at ingestion. -/
theorem C3_recent_order (papers : List Paper) (category : String) (limit : Int) (res : QueryOut)
    (hpub : ∀ p ∈ papers, 10 ≤ p.published.length)
    (hq : query_recent_in_category (storeOf papers) category limit = .ok res) :
    res.results.Pairwise (fun r1 r2 =>
      strTake r2.published 10 ≤ strTake r1.published 10 ∧
      (strTake r1.published 10 = strTake r2.published 10 → r2.arxiv_id ≤ r1.arxiv_id)) := by
  rw [query_recent_in_category] at hq
  split at hq
  · simp at hq
  · simp only [Except.ok.injEq] at hq
    subst hq
    simp only []
    have hsorted : List.Pairwise skDesc
        (mainPartitionDesc (storeOf papers) ("CATEGORY#" ++ category)) :=
      List.sorted_insertionSort skDesc _
    have hsorted2 : List.Pairwise skDesc
        ((mainPartitionDesc (storeOf papers) ("CATEGORY#" ++ category)).take limit.toNat) :=
      List.Pairwise.sublist (List.take_sublist _ _) hsorted
    rw [List.pairwise_map]
    apply List.Pairwise.imp_of_mem ?_ hsorted2
    intro a b ha hb hab
    have hmem : ∀ {it : Item},
        it ∈ (mainPartitionDesc (storeOf papers) ("CATEGORY#" ++ category)).take limit.toNat →
        ∃ p ∈ papers, ∃ c ∈ p.categories,
          it = categoryItem p (extract_keywords p.abstract) c := by
      intro it hit
      have h1 := (List.take_sublist _ _).mem hit
      rw [mainPartitionDesc, List.mem_insertionSort, List.mem_filter] at h1
      rcases h1 with ⟨h2, h3⟩
      rcases mem_storeOf.mp h2 with ⟨p, hp, h4⟩
      exact ⟨p, hp, pk_eq_category_iff h4 category (beq_iff_eq.mp h3)⟩
    rcases hmem ha with ⟨p1, hp1, c1, -, rfl⟩
    rcases hmem hb with ⟨p2, hp2, c2, -, rfl⟩
    have hl1 : (strTake p1.published 10).length = 10 := strTake_length _ _ (hpub p1 hp1)
    have hl2 : (strTake p2.published 10).length = 10 := strTake_length _ _ (hpub p2 hp2)
    have hab' : strTake p2.published 10 ++ "#" ++ p2.arxiv_id
        ≤ strTake p1.published 10 ++ "#" ++ p1.arxiv_id := hab
    rw [sk_le_iff _ _ _ _ (hl1.trans hl2.symm)] at hab'
    rcases hab' with hlt | ⟨heq, hle⟩
    · exact ⟨le_of_lt hlt, fun h => absurd (h ▸ hlt) (lt_irrefl _)⟩
    · exact ⟨le_of_eq heq, fun _ => hle⟩

/-- Claim C4.  For every category and every pair of ten-character dates
(equal or inverted pairs included), the date-range query returns exactly
the members of the unlimited recent-in-category result whose publication
date lies in the inclusive range, provided ids start with a character below
`z` (needed by the `<end>#zzzzzzzz` upper bound of the code). -/
theorem C4_date_range (papers : List Paper) (category d1 d2 : String)
    (hpub : ∀ p ∈ papers, 10 ≤ p.published.length)
    (hid : ∀ p ∈ papers, ∀ c ∈ p.arxiv_id.data.take 1, c < 'z')
    (hd1 : d1.length = 10) (hd2 : d2.length = 10) :
    ∀ r, r ∈ (query_papers_in_date_range (storeOf papers) category d1 d2).results ↔
      (r ∈ query_recent_unlimited (storeOf papers) category ∧
        d1 ≤ strTake r.published 10 ∧ strTake r.published 10 ≤ d2) := by
  intro r
  constructor
  · intro hr
    rw [query_papers_in_date_range] at hr
    simp only [List.mem_map, List.mem_insertionSort, List.mem_filter,
      Bool.and_eq_true, beq_iff_eq] at hr
    rcases hr with ⟨it, ⟨hmem, ⟨hpk, hlo⟩, hhi⟩, rfl⟩
    rcases mem_storeOf.mp hmem with ⟨p, hp, h4⟩
    rcases pk_eq_category_iff h4 category hpk with ⟨c, -, rfl⟩
    have hlen : (strTake p.published 10).length = 10 := strTake_length _ _ (hpub p hp)
    have hlo' := of_decide_eq_true hlo
    have hhi' := of_decide_eq_true hhi
    rw [show (categoryItem p (extract_keywords p.abstract) c).SK
        = strTake p.published 10 ++ "#" ++ p.arxiv_id from rfl] at hlo' hhi'
    rw [lower_bound_iff d1 _ _ (hd1.trans hlen.symm)] at hlo'
    rw [upper_bound_iff _ d2 _ (hlen.trans hd2.symm) (le_zzz_of_take1 _ (hid p hp))] at hhi'
    refine ⟨?_, hlo', hhi'⟩
    rw [query_recent_unlimited]
    simp only [List.mem_map, mainPartitionDesc, List.mem_insertionSort, List.mem_filter]
    exact ⟨categoryItem p (extract_keywords p.abstract) c, ⟨hmem, beq_iff_eq.mpr hpk⟩, rfl⟩
  · rintro ⟨hr, hlo, hhi⟩
    rw [query_recent_unlimited] at hr
    simp only [List.mem_map, mainPartitionDesc, List.mem_insertionSort, List.mem_filter,
      Bool.and_eq_true, beq_iff_eq] at hr
    rcases hr with ⟨it, ⟨hmem, hpk⟩, rfl⟩
    rcases mem_storeOf.mp hmem with ⟨p, hp, h4⟩
    rcases pk_eq_category_iff h4 category hpk with ⟨c, -, rfl⟩
    have hlen : (strTake p.published 10).length = 10 := strTake_length _ _ (hpub p hp)
    rw [query_papers_in_date_range]
    simp only [List.mem_map, List.mem_insertionSort, List.mem_filter,
      Bool.and_eq_true, beq_iff_eq]
    refine ⟨categoryItem p (extract_keywords p.abstract) c,
      ⟨hmem, ⟨hpk, decide_eq_true ?_⟩, decide_eq_true ?_⟩, rfl⟩
    · rw [show (categoryItem p (extract_keywords p.abstract) c).SK
          = strTake p.published 10 ++ "#" ++ p.arxiv_id from rfl]
      rw [lower_bound_iff d1 _ _ (hd1.trans hlen.symm)]
      exact hlo
    · rw [show (categoryItem p (extract_keywords p.abstract) c).SK
          = strTake p.published 10 ++ "#" ++ p.arxiv_id from rfl]
      rw [upper_bound_iff _ d2 _ (hlen.trans hd2.symm) (le_zzz_of_take1 _ (hid p hp))]
      exact hhi



def fixturePaper1 : Paper :=
  { arxiv_id := "2401.00001"
    title := "P1"
    authors := ["Alice"]
    abstract := ""
    categories := ["cs.AI"]
    published := "2024-01-01T00:00:00Z" }

def fixturePaper2 : Paper :=
  { arxiv_id := "2401.00002"
    title := "P2"
    authors := ["Alice", "Bob"]
    abstract := ""
    categories := ["cs.AI", "cs.CL"]
    published := "2024-01-02T00:00:00Z" }



def fixtureRec1 : ResultRec :=
  { arxiv_id := "2401.00001"
    title := "P1"
    authors := ["Alice"]
    published := "2024-01-01T00:00:00Z"
    categories := ["cs.AI"] }

def fixtureRec2 : ResultRec :=
  { arxiv_id := "2401.00002"
    title := "P2"
    authors := ["Alice", "Bob"]
    published := "2024-01-02T00:00:00Z"
    categories := ["cs.AI", "cs.CL"] }

/-- Witness for claim C3 on the two-paper fixture with limit 10. -/
theorem C3_recent_order_witness :
    ([fixtureRec2, fixtureRec1] : List ResultRec).Pairwise
      (fun r1 r2 => strTake r2.published 10 ≤ strTake r1.published 10 ∧
        (strTake r1.published 10 = strTake r2.published 10 → r2.arxiv_id ≤ r1.arxiv_id)) :=
  C3_recent_order [fixturePaper1, fixturePaper2] "cs.AI" 10
    { results := [fixtureRec2, fixtureRec1], count := 2 } (by decide) rfl

/-- Witness for claim C4 at the boundary `d1 = d2`. -/
theorem C4_date_range_witness :
    fixtureRec1 ∈ (query_papers_in_date_range (storeOf [fixturePaper1, fixturePaper2])
        "cs.AI" "2024-01-01" "2024-01-01").results ↔
      (fixtureRec1 ∈ query_recent_unlimited (storeOf [fixturePaper1, fixturePaper2]) "cs.AI" ∧
        "2024-01-01" ≤ strTake fixtureRec1.published 10 ∧
        strTake fixtureRec1.published 10 ≤ "2024-01-01") :=
  C4_date_range [fixturePaper1, fixturePaper2] "cs.AI" "2024-01-01" "2024-01-01"
    (by decide) (by decide) (by decide) (by decide) fixtureRec1

/-- Claim C9, amended.  When the index entries of the author fit within the
query limit, the `AuthorIndex` path and the scan fallback of
`api_server.query_papers_by_author` return the same set of paper ids. -/
theorem C9_author_paths_agree (papers : List Paper) (author_name : String) (limit : Nat)
    (h : ((storeOf papers).filter
        (fun it => it.GSI1PK == some ("AUTHOR#" ++ author_name))).length ≤ limit) :
    ∀ id, (∃ it ∈ authorIndexQuery (storeOf papers) author_name limit, it.arxiv_id = id) ↔
      (∃ it ∈ authorScanFallback (storeOf papers) author_name, it.arxiv_id = id) := by
  intro id
  have htake : authorIndexQuery (storeOf papers) author_name limit
      = ((storeOf papers).filter
          (fun it => it.GSI1PK == some ("AUTHOR#" ++ author_name))).insertionSort gsi1Asc := by
    rw [authorIndexQuery]
    apply List.take_of_length_le
    rw [List.length_insertionSort]
    exact h
  constructor
  · rintro ⟨it, hit, rfl⟩
    rw [htake, List.mem_insertionSort, List.mem_filter] at hit
    rcases hit with ⟨hmem, hbeq⟩
    rcases mem_storeOf.mp hmem with ⟨p, hp, h4⟩
    rcases gsi1pk_some h4 (beq_iff_eq.mp hbeq) with ⟨a, ha, rfl, heq⟩
    have haname : a = author_name := (strAppend_left_cancel heq).symm
    subst haname
    refine ⟨authorItem p a, ?_, rfl⟩
    rw [authorScanFallback, List.mem_filter]
    refine ⟨hmem, ?_⟩
    show p.authors.contains a = true
    exact List.elem_eq_true_of_mem ha
  · rintro ⟨it, hit, rfl⟩
    rw [authorScanFallback, List.mem_filter] at hit
    rcases hit with ⟨hmem, hcont⟩
    rcases mem_storeOf.mp hmem with ⟨p, hp, h4⟩
    have hfields := item_fields h4
    have hname : author_name ∈ p.authors := by
      rw [← hfields.1]
      exact List.mem_of_elem_eq_true hcont
    refine ⟨authorItem p author_name, ?_, ?_⟩
    · rw [htake, List.mem_insertionSort, List.mem_filter]
      refine ⟨mem_storeOf_of_paper hp (mem_transform_paper.mpr
          (Or.inr (Or.inl ⟨author_name, hname, rfl⟩))), ?_⟩
      show ((authorItem p author_name).GSI1PK == some ("AUTHOR#" ++ author_name)) = true
      exact beq_iff_eq.mpr rfl
    · show p.arxiv_id = it.arxiv_id
      rw [hfields.2.1]

/-- Eleven one-author papers: more than the default query limit of 10. -/
def elevenPapers : List Paper :=
  ["A0", "A1", "A2", "A3", "A4", "A5", "A6", "A7", "A8", "A9", "A10"].map fun i =>
    { arxiv_id := i
      title := "T"
      authors := ["Alice"]
      abstract := ""
      categories := ["cs.AI"]
      published := "2024-01-01T00:00:00Z" }

/-- Claim C9, counterexample.  With eleven papers by one author and the
default limit 10, the scan fallback returns id `A9` but the index path,
truncated by `Limit`, does not: the two paths differ as sets. -/
theorem C9_counterexample :
    (∃ it ∈ authorScanFallback (storeOf elevenPapers) "Alice", it.arxiv_id = "A9") ∧
    ¬ (∃ it ∈ authorIndexQuery (storeOf elevenPapers) "Alice" 10, it.arxiv_id = "A9") := by
  decide

/-- Witness for the amended claim C9 on the two-paper fixture. -/
theorem C9_author_paths_agree_witness :
    (∃ it ∈ authorIndexQuery (storeOf [fixturePaper1, fixturePaper2]) "Alice" 10,
        it.arxiv_id = "2401.00001") ↔
    (∃ it ∈ authorScanFallback (storeOf [fixturePaper1, fixturePaper2]) "Alice",
        it.arxiv_id = "2401.00001") :=
  C9_author_paths_agree [fixturePaper1, fixturePaper2] "Alice" 10 (by decide) "2401.00001"

/-! ### Claim C10 -/

/-- Claim C10.  `get_paper_by_id` returns at most one result, and when
the `PaperIdIndex` partition is non-empty the item it keeps (`Items[0]` of
the ascending index query) is the canonical full by-id item of a paper with
the requested id, never a per-category entry: `ARXIV#<id>` sorts before
every `CATEGORY#<c>`. -/
theorem C10_get_by_id (papers : List Paper) (aid : String) :
    (get_paper_by_id (storeOf papers) aid).count ≤ 1 ∧
    ∀ it, (paperIdIndexItems (storeOf papers) aid).head? = some it →
      ∃ p ∈ papers, p.arxiv_id = aid ∧ it = paperIdItem p (extract_keywords p.abstract) ∧
        (get_paper_by_id (storeOf papers) aid).results = [projectRec it] := by
  constructor
  · rcases hl : paperIdIndexItems (storeOf papers) aid with - | ⟨i, rest⟩ <;>
      simp [get_paper_by_id, hl]
  · intro it hhead
    rcases hl : paperIdIndexItems (storeOf papers) aid with - | ⟨i, rest⟩
    · rw [hl] at hhead; cases hhead
    · rw [hl] at hhead
      injection hhead with h1
      have h1' : it = i := h1.symm
      subst h1'
      have hsorted : List.Pairwise gsi2Asc (paperIdIndexItems (storeOf papers) aid) :=
        List.sorted_insertionSort gsi2Asc _
      rw [hl, List.pairwise_cons] at hsorted
      have hmem : it ∈ paperIdIndexItems (storeOf papers) aid := by
        rw [hl]; exact List.mem_cons_self _ _
      rw [paperIdIndexItems, List.mem_insertionSort, List.mem_filter] at hmem
      rcases hmem with ⟨hmem, hbeq⟩
      rcases mem_storeOf.mp hmem with ⟨p, hp, h4⟩
      rcases gsi2pk_some h4 (beq_iff_eq.mp hbeq) with ⟨hs, hshape⟩
      have haid : p.arxiv_id = aid := (strAppend_left_cancel hs).symm
      rcases hshape with ⟨c, -, rfl⟩ | rfl
      · exfalso
        have hcanon : paperIdItem p (extract_keywords p.abstract)
            ∈ paperIdIndexItems (storeOf papers) aid := by
          rw [paperIdIndexItems, List.mem_insertionSort, List.mem_filter]
          refine ⟨mem_storeOf_of_paper hp
            (mem_transform_paper.mpr (Or.inr (Or.inr (Or.inr rfl)))), ?_⟩
          show ((paperIdItem p (extract_keywords p.abstract)).GSI2PK
              == some ("ARXIV#" ++ aid)) = true
          rw [show (paperIdItem p (extract_keywords p.abstract)).GSI2PK
              = some ("ARXIV#" ++ p.arxiv_id) from rfl, haid]
          exact beq_iff_eq.mpr rfl
        have hne : paperIdItem p (extract_keywords p.abstract)
            ≠ categoryItem p (extract_keywords p.abstract) c := by
          intro heq
          have h5 := congrArg Item.GSI2SK heq
          rw [show (paperIdItem p (extract_keywords p.abstract)).GSI2SK
              = some ("ARXIV#" ++ p.arxiv_id) from rfl,
            show (categoryItem p (extract_keywords p.abstract) c).GSI2SK
              = some ("CATEGORY#" ++ c) from rfl] at h5
          injection h5 with h6
          exact absurd h6 (ne_of_lt (arxiv_lt_category p.arxiv_id c))
        have hrest : paperIdItem p (extract_keywords p.abstract) ∈ rest := by
          have := hcanon
          rw [hl] at this
          rcases List.mem_cons.mp this with heq | hrest
          · exact absurd heq hne
          · exact hrest
        have hle := hsorted.1 _ hrest
        have hle' : "CATEGORY#" ++ c ≤ "ARXIV#" ++ p.arxiv_id := hle
        exact absurd hle' (not_le_of_lt (arxiv_lt_category p.arxiv_id c))
      · refine ⟨p, hp, haid, rfl, ?_⟩
        rw [get_paper_by_id, hl]

/-- Witness for claim C10 on a one-paper store. -/
theorem C10_get_by_id_witness :
    (get_paper_by_id (storeOf [fixturePaper1]) "2401.00001").count ≤ 1 ∧
    (∃ p ∈ [fixturePaper1], p.arxiv_id = "2401.00001" ∧
      paperIdItem fixturePaper1 (extract_keywords fixturePaper1.abstract)
        = paperIdItem p (extract_keywords p.abstract) ∧
      (get_paper_by_id (storeOf [fixturePaper1]) "2401.00001").results
        = [projectRec (paperIdItem fixturePaper1 (extract_keywords fixturePaper1.abstract))]) :=
  ⟨(C10_get_by_id [fixturePaper1] "2401.00001").1,
   (C10_get_by_id [fixturePaper1] "2401.00001").2
     (paperIdItem fixturePaper1 (extract_keywords fixturePaper1.abstract)) (by decide)⟩

/-! ### Claim C5: the keyword extractor contract -/

theorem pair_sublist_indexOf {α : Type} [DecidableEq α] :
    ∀ {l : List α} {a b : α}, l.Nodup → [a, b].Sublist l → l.indexOf a < l.indexOf b
  | [], a, b, _, h => by cases h
  | x :: l, a, b, hnd, h => by
    rcases List.nodup_cons.mp hnd with ⟨hx, hnd'⟩
    cases h with
    | cons _ h' =>
      have ha : a ∈ l := h'.subset (by simp)
      have hb : b ∈ l := h'.subset (by simp)
      have hax : x ≠ a := fun heq => hx (heq ▸ ha)
      have hbx : x ≠ b := fun heq => hx (heq ▸ hb)
      rw [List.indexOf_cons_ne _ hax, List.indexOf_cons_ne _ hbx]
      exact Nat.succ_lt_succ (pair_sublist_indexOf hnd' h')
    | cons₂ _ h' =>
      have hb : b ∈ l := List.singleton_sublist.mp h'
      have hbx : x ≠ b := fun heq => hx (heq ▸ hb)
      rw [List.indexOf_cons_self, List.indexOf_cons_ne _ hbx]
      exact Nat.succ_pos _

theorem mem_pair_sublist {α : Type} :
    ∀ {l : List α} {a b : α}, a ≠ b → a ∈ l → b ∈ l →
      [a, b].Sublist l ∨ [b, a].Sublist l
  | [], a, b, _, ha, _ => absurd ha (List.not_mem_nil _)
  | x :: l, a, b, hne, ha, hb => by
    rcases List.mem_cons.mp ha with rfl | ha'
    · have hb' : b ∈ l := by
        rcases List.mem_cons.mp hb with rfl | h
        · exact absurd rfl hne
        · exact h
      exact Or.inl (List.Sublist.cons₂ _ (List.singleton_sublist.mpr hb'))
    · rcases List.mem_cons.mp hb with rfl | hb'
      · exact Or.inr (List.Sublist.cons₂ _ (List.singleton_sublist.mpr ha'))
      · rcases mem_pair_sublist hne ha' hb' with h | h
        · exact Or.inl (h.cons _)
        · exact Or.inr (h.cons _)

theorem counterKeys_mem {x : String} :
    ∀ {ws seen : List String}, x ∈ counterKeys seen ws → x ∈ ws ∧ x ∉ seen
  | [], seen, h => by cases h
  | w :: ws, seen, h => by
    rw [counterKeys] at h
    split at h
    · rcases counterKeys_mem h with ⟨h1, h2⟩
      exact ⟨List.mem_cons_of_mem _ h1, h2⟩
    · rename_i hws
      rcases List.mem_cons.mp h with rfl | h'
      · exact ⟨List.mem_cons_self _ _, fun hmem => hws (List.elem_eq_true_of_mem hmem)⟩
      · rcases counterKeys_mem h' with ⟨h1, h2⟩
        exact ⟨List.mem_cons_of_mem _ h1, fun hmem => h2 (List.mem_cons_of_mem _ hmem)⟩



theorem counterKeys_nodup : ∀ (ws seen : List String), (counterKeys seen ws).Nodup
  | [], _ => List.nodup_nil
  | w :: ws, seen => by
    rw [counterKeys]
    split
    · exact counterKeys_nodup ws seen
    · refine List.nodup_cons.mpr ⟨?_, counterKeys_nodup ws (w :: seen)⟩
      intro hmem
      exact absurd (List.mem_cons_self w seen) (counterKeys_mem hmem).2

theorem counterKeys_order {x y : String} :
    ∀ {ws seen : List String}, [x, y].Sublist (counterKeys seen ws) →
      ws.indexOf x < ws.indexOf y
  | [], seen, h => by cases h
  | w :: ws, seen, h => by
    rw [counterKeys] at h
    split at h
    · rename_i hws
      have hwseen : w ∈ seen := List.mem_of_elem_eq_true hws
      have hx : x ∉ seen := (counterKeys_mem (h.subset (by simp : x ∈ [x, y]))).2
      have hy : y ∉ seen := (counterKeys_mem (h.subset (by simp : y ∈ [x, y]))).2
      have hxw : w ≠ x := fun heq => hx (heq ▸ hwseen)
      have hyw : w ≠ y := fun heq => hy (heq ▸ hwseen)
      rw [List.indexOf_cons_ne _ hxw, List.indexOf_cons_ne _ hyw]
      exact Nat.succ_lt_succ (counterKeys_order h)
    · cases h with
      | cons _ h' =>
        have hx : x ∉ w :: seen := (counterKeys_mem (h'.subset (by simp : x ∈ [x, y]))).2
        have hy : y ∉ w :: seen := (counterKeys_mem (h'.subset (by simp : y ∈ [x, y]))).2
        have hxw : w ≠ x := fun heq => hx (heq ▸ List.mem_cons_self _ _)
        have hyw : w ≠ y := fun heq => hy (heq ▸ List.mem_cons_self _ _)
        rw [List.indexOf_cons_ne _ hxw, List.indexOf_cons_ne _ hyw]
        exact Nat.succ_lt_succ (counterKeys_order h')
      | cons₂ _ h' =>
        have hymem := List.singleton_sublist.mp h'
        have hy : y ∉ x :: seen := (counterKeys_mem hymem).2
        have hxy : x ≠ y := fun heq => hy (heq ▸ List.mem_cons_self _ _)
        rw [List.indexOf_cons_self, List.indexOf_cons_ne _ hxy]
        exact Nat.succ_pos _

theorem filter_indexOf_lt {p : String → Bool} {x y : String} :
    ∀ {ws : List String}, x ∈ ws.filter p → y ∈ ws.filter p →
      (ws.filter p).indexOf x < (ws.filter p).indexOf y →
      ws.indexOf x < ws.indexOf y
  | [], hx, _, _ => by cases hx
  | w :: ws, hx, hy, hlt => by
    by_cases hpw : p w = true
    · rw [List.filter_cons_of_pos hpw] at hx hy hlt
      by_cases hxw : x = w
      · subst hxw
        have hyx : y ≠ x := by
          intro heq
          subst heq
          exact absurd hlt (lt_irrefl _)
        rw [List.indexOf_cons_self] at hlt ⊢
        rw [List.indexOf_cons_ne _ (fun heq => hyx heq.symm)]
        exact Nat.succ_pos _
      · by_cases hyw : y = w
        · subst hyw
          rw [List.indexOf_cons_self] at hlt
          rw [List.indexOf_cons_ne _ (fun heq => hxw heq.symm)] at hlt
          exact absurd hlt (Nat.not_lt_zero _)
        · rw [List.indexOf_cons_ne _ (fun heq => hxw heq.symm),
            List.indexOf_cons_ne _ (fun heq => hyw heq.symm)] at hlt
          rw [List.indexOf_cons_ne _ (fun heq => hxw heq.symm),
            List.indexOf_cons_ne _ (fun heq => hyw heq.symm)]
          have hx' : x ∈ ws.filter p := by
            rcases List.mem_cons.mp hx with heq | h
            · exact absurd heq hxw
            · exact h
          have hy' : y ∈ ws.filter p := by
            rcases List.mem_cons.mp hy with heq | h
            · exact absurd heq hyw
            · exact h
          exact Nat.succ_lt_succ (filter_indexOf_lt hx' hy' (Nat.lt_of_succ_lt_succ hlt))
    · rw [List.filter_cons_of_neg (by simpa using hpw)] at hx hy hlt
      have hxw : x ≠ w := by
        intro heq
        subst heq
        exact hpw (List.of_mem_filter hx)
      have hyw : y ≠ w := by
        intro heq
        subst heq
        exact hpw (List.of_mem_filter hy)
      rw [List.indexOf_cons_ne _ (fun heq => hxw heq.symm),
        List.indexOf_cons_ne _ (fun heq => hyw heq.symm)]
      exact Nat.succ_lt_succ (filter_indexOf_lt hx hy hlt)



theorem tokenizeAux_chars :
    ∀ (cs acc : List Char) (t : String), t ∈ tokenizeAux cs acc →
      ∀ c ∈ t.data, c ∈ cs ∨ c ∈ acc
  | [], acc, t, ht, c, hc => by
    rw [tokenizeAux] at ht
    split at ht
    · cases ht
    · rcases List.mem_singleton.mp ht with rfl
      exact Or.inr (List.mem_reverse.mp hc)
  | c0 :: cs, acc, t, ht, c, hc => by
    rw [tokenizeAux] at ht
    split at ht
    · rcases tokenizeAux_chars cs (c0 :: acc) t ht c hc with h | h
      · exact Or.inl (List.mem_cons_of_mem _ h)
      · rcases List.mem_cons.mp h with rfl | h'
        · exact Or.inl (List.mem_cons_self _ _)
        · exact Or.inr h'
    · split at ht
      · rcases tokenizeAux_chars cs [] t ht c hc with h | h
        · exact Or.inl (List.mem_cons_of_mem _ h)
        · cases h
      · rcases List.mem_cons.mp ht with rfl | ht'
        · exact Or.inr (List.mem_reverse.mp hc)
        · rcases tokenizeAux_chars cs [] t ht' c hc with h | h
          · exact Or.inl (List.mem_cons_of_mem _ h)
          · cases h

theorem char_toNat_ofNat (n : Nat) (h : n.isValidChar) : (Char.ofNat n).toNat = n := by
  simp only [Char.ofNat, h, dif_pos, Char.ofNatAux, Char.toNat]
  simp [UInt32.toNat, UInt32.ofNatCore]

theorem isUpperAscii_lowerChar (c : Char) : isUpperAscii (lowerChar c) = false := by
  rw [lowerChar]
  split
  · rename_i h
    have hv : (c.toNat + 32).isValidChar := Or.inl (by omega)
    rw [isUpperAscii, char_toNat_ofNat _ hv]
    exact decide_eq_false (by omega)
  · rename_i h
    exact decide_eq_false h

theorem tokenize_strLower_not_upper {t : String} (ht : t ∈ tokenize (strLower s)) :
    ∀ c ∈ t.data, isUpperAscii c = false := by
  intro c hc
  rcases tokenizeAux_chars (strLower s).data [] t ht c hc with h | h
  · rcases List.mem_map.mp h with ⟨c0, -, rfl⟩
    exact isUpperAscii_lowerChar c0
  · cases h



theorem mostCommon_mem (words : List String) (n : Nat) {w : String}
    (hw : w ∈ mostCommon words n) : w ∈ words := by
  rw [mostCommon] at hw
  have h1 := (List.take_sublist _ _).mem hw
  rw [List.mem_insertionSort] at h1
  exact (counterKeys_mem h1).1

theorem mostCommon_sorted (words : List String) (n : Nat) :
    (mostCommon words n).Pairwise (fun a b =>
      words.count b < words.count a ∨
      (words.count a = words.count b ∧ words.indexOf a < words.indexOf b)) := by
  rw [mostCommon]
  haveI htot : IsTotal String (fun a b => words.count b ≤ words.count a) :=
    ⟨fun a b => Nat.le_total (words.count b) (words.count a)⟩
  haveI htr : IsTrans String (fun a b => words.count b ≤ words.count a) :=
    ⟨fun _ _ _ h1 h2 => le_trans h2 h1⟩
  have hnodup : ((counterKeys [] words).insertionSort
      (fun a b => words.count b ≤ words.count a)).Nodup :=
    (List.perm_insertionSort _ _).symm.nodup (counterKeys_nodup words [])
  rw [List.pairwise_iff_forall_sublist]
  intro a b hab
  have hab' : [a, b].Sublist ((counterKeys [] words).insertionSort
      (fun a b => words.count b ≤ words.count a)) :=
    hab.trans (List.take_sublist _ _)
  have hrab : words.count b ≤ words.count a :=
    List.pairwise_iff_forall_sublist.mp
      (List.sorted_insertionSort (fun a b => words.count b ≤ words.count a) _) hab'
  have hne : a ≠ b := by
    have hnd2 : ([a, b] : List String).Nodup := hnodup.sublist hab'
    rcases List.nodup_cons.mp hnd2 with ⟨hna, -⟩
    exact fun heq => hna (heq ▸ List.mem_singleton.mpr rfl)
  have ha : a ∈ counterKeys [] words := by
    rw [← List.mem_insertionSort (r := fun a b => words.count b ≤ words.count a)]
    exact hab'.subset (by simp : a ∈ [a, b])
  have hb : b ∈ counterKeys [] words := by
    rw [← List.mem_insertionSort (r := fun a b => words.count b ≤ words.count a)]
    exact hab'.subset (by simp : b ∈ [a, b])
  rcases eq_or_lt_of_le hrab with heq | hlt
  · refine Or.inr ⟨heq.symm, ?_⟩
    rcases mem_pair_sublist hne ha hb with hpair | hpair
    · exact counterKeys_order hpair
    · exfalso
      have hrba : words.count a ≤ words.count b := le_of_eq heq.symm
      have hstab : [b, a].Sublist ((counterKeys [] words).insertionSort
          (fun a b => words.count b ≤ words.count a)) :=
        List.pair_sublist_insertionSort hrba hpair
      have h1 := pair_sublist_indexOf hnodup hab'
      have h2 := pair_sublist_indexOf hnodup hstab
      exact absurd h1 (Nat.lt_asymm h2)
  · exact Or.inl hlt

/-- Claim C5.  For every text and bound, `extract_keywords` returns at
most `topN` words; each is free of upper-case ASCII letters, longer than
two characters and not a stopword; and the sequence is ordered by
descending frequency in the tokenized text with ties broken by first
occurrence. -/
theorem C5_extract_contract (text : String) (topN : Nat) :
    (extract_keywords text topN).length ≤ topN ∧
    (∀ w ∈ extract_keywords text topN,
      (∀ c ∈ w.data, isUpperAscii c = false) ∧ 2 < w.length ∧ w ∉ STOPWORDS) ∧
    (extract_keywords text topN).Pairwise (fun a b =>
      (tokenize (strLower text)).count b < (tokenize (strLower text)).count a ∨
      ((tokenize (strLower text)).count a = (tokenize (strLower text)).count b ∧
        (tokenize (strLower text)).indexOf a < (tokenize (strLower text)).indexOf b)) := by
  have hunfold : extract_keywords text topN
      = mostCommon ((tokenize (strLower text)).filter
          (fun w => !STOPWORDS.contains w && decide (2 < w.length))) topN := rfl
  refine ⟨?_, ?_, ?_⟩
  · rw [hunfold, mostCommon]
    exact List.length_take_le _ _
  · intro w hw
    rw [hunfold] at hw
    have hw' := mostCommon_mem _ _ hw
    have hmem := List.mem_filter.mp hw'
    have hcond := hmem.2
    rw [Bool.and_eq_true] at hcond
    rcases hcond with ⟨h1, h2⟩
    refine ⟨tokenize_strLower_not_upper hmem.1, of_decide_eq_true h2, ?_⟩
    intro hmemSW
    rw [Bool.not_eq_true'] at h1
    have h3 : STOPWORDS.contains w = true := List.elem_eq_true_of_mem hmemSW
    rw [h3] at h1
    cases h1
  · rw [hunfold]
    have hsorted := mostCommon_sorted ((tokenize (strLower text)).filter
        (fun w => !STOPWORDS.contains w && decide (2 < w.length))) topN
    apply List.Pairwise.imp_of_mem ?_ hsorted
    intro a b ha hb h
    have ha' := mostCommon_mem _ _ ha
    have hb' := mostCommon_mem _ _ hb
    have hpa := List.of_mem_filter ha'
    have hpb := List.of_mem_filter hb'
    have hca : ((tokenize (strLower text)).filter
        (fun w => !STOPWORDS.contains w && decide (2 < w.length))).count a
        = (tokenize (strLower text)).count a := List.count_filter hpa
    have hcb : ((tokenize (strLower text)).filter
        (fun w => !STOPWORDS.contains w && decide (2 < w.length))).count b
        = (tokenize (strLower text)).count b := List.count_filter hpb
    rcases h with hlt | ⟨heq, hidx⟩
    · left
      rw [← hca, ← hcb]
      exact hlt
    · right
      refine ⟨?_, filter_indexOf_lt ha' hb' hidx⟩
      rw [← hca, ← hcb]
      exact heq

/-- Witness for claim C5 at the example text of the spec and `topN = 4`. -/
theorem C5_extract_contract_witness :
    (extract_keywords "The model uses attention based transformers. Transformers are powerful."
        4).length ≤ 4 ∧
    (∀ w ∈ extract_keywords
        "The model uses attention based transformers. Transformers are powerful." 4,
      (∀ c ∈ w.data, isUpperAscii c = false) ∧ 2 < w.length ∧ w ∉ STOPWORDS) ∧
    (extract_keywords "The model uses attention based transformers. Transformers are powerful."
        4).Pairwise (fun a b =>
      (tokenize (strLower
        "The model uses attention based transformers. Transformers are powerful.")).count b
        < (tokenize (strLower
        "The model uses attention based transformers. Transformers are powerful.")).count a ∨
      ((tokenize (strLower
        "The model uses attention based transformers. Transformers are powerful.")).count a
        = (tokenize (strLower
        "The model uses attention based transformers. Transformers are powerful.")).count b ∧
       (tokenize (strLower
        "The model uses attention based transformers. Transformers are powerful.")).indexOf a
        < (tokenize (strLower
        "The model uses attention based transformers. Transformers are powerful.")).indexOf b)) :=
  C5_extract_contract
    "The model uses attention based transformers. Transformers are powerful." 4

end ArxivDB
